import Mathlib

/-!
Verification of the job-reservation core of `datajoint/jobs.py`.

The embedding models:
* `key_hash` — the md5-based digest of a job's primary key.  The md5
  accumulator receives `str(v).encode()` for each item of
  `sorted(key.items())`; we model the accumulated byte stream as the
  concatenation `hashInput` of the stringified values in sorted-field-name
  order, and the md5 hexdigest as an abstract function `digest` applied to
  that stream (incremental update over a stream equals the digest of the
  concatenation).
* `JobRelation.reserve` / `complete` / `error` — the state of the `~jobs`
  table is a list of `JobRecord`s with composite primary key
  `(table_name, key_hash)`; the storage backend's conditional insert,
  delete-by-key and REPLACE semantics are modelled explicitly.  The
  `timestamp` column is set by the database (`CURRENT_TIMESTAMP`), never
  read or written by this code, and is therefore omitted from the record.
* `JobManager.__getitem__` — a process-local cache from database name to
  `JobRelation`.
-/

namespace DataJoint

/-- A value appearing in a job key; `toStr` models Python's `str()`. -/
inductive Value where
  | int (n : Int)
  | str (s : String)
deriving DecidableEq

/-- Python `str(v)` for the values we model. -/
def Value.toStr : Value → String
  | .int n => toString n
  | .str s => s

/-- A job key is a dict from field name to value, modelled as an
association list in insertion order; being a dict means the field names
are distinct (`Nodup` on the mapped names). -/
abbrev Key := List (String × Value)

/-- `sorted(key.items())`: the items sorted on field name.  Python sorts
the `(name, value)` tuples lexicographically; since a dict's field names
are distinct, this coincides with sorting on the name alone (modelled
with insertion sort, which computes the same name-sorted arrangement). -/
def sortedItems (key : Key) : Key :=
  List.insertionSort (fun a b => a.1 ≤ b.1) key

/-- The byte stream accumulated into the md5 digest by `key_hash`:
the concatenation of `str(v)` over the sorted items.  Field names are
not fed to the accumulator. -/
def hashInput (key : Key) : String :=
  String.join ((sortedItems key).map (fun kv => kv.2.toStr))

/-- `key_hash(key)`: hexdigest of the accumulated stream.  `digest`
abstracts `hashlib.md5(...).hexdigest()`. -/
def key_hash (digest : String → String) (key : Key) : String :=
  digest (hashInput key)

/-- The `status` enum column of the `~jobs` table. -/
inductive Status where
  | reserved
  | error
  | ignore
deriving DecidableEq

/-- One row of the `~jobs` table.  Field defaults mirror the column
defaults of the table definition (`key=null`, `error_message=""`,
`error_stack=null`, `host=""`, `pid=0`).  The composite primary key is
`(table_name, key_hash)`. -/
structure JobRecord where
  table_name : String
  key_hash : String
  status : Status
  key : Option Key := none
  error_message : String := ""
  error_stack : Option String := none
  host : String := ""
  pid : Nat := 0
deriving DecidableEq

/-- The contents of one `~jobs` table. -/
abbrev Store := List JobRecord

/-- Host and process identity (`os.uname().nodename`, `os.getpid()`). -/
structure Env where
  nodename : String
  pid : Nat
deriving DecidableEq

/-- Does record `r` carry the composite primary key `(t, h)`? -/
def matchesKey (t h : String) (r : JobRecord) : Bool :=
  r.table_name == t && r.key_hash == h

/-- Lookup by composite primary key. -/
def findRecord (st : Store) (t h : String) : Option JobRecord :=
  st.find? (matchesKey t h)

/-- `reserve(table_name, key)`: conditional insert of a `reserved` row;
`pymysql.err.IntegrityError` (duplicate composite key) is caught and
converted to `False`, success returns `True`.  Returns the new store
contents together with the boolean result. -/
def reserve (digest : String → String) (env : Env) (st : Store)
    (table_name : String) (key : Key) : Store × Bool :=
  let h := key_hash digest key
  match findRecord st table_name h with
  | some _ => (st, false)
  | none =>
      ({ table_name := table_name, key_hash := h, status := .reserved,
         host := env.nodename, pid := env.pid } :: st, true)

/-- `complete(table_name, key)`: `(self & job_key).delete_quick()` —
delete the rows matching the composite key (at most one exists). -/
def complete (digest : String → String) (st : Store)
    (table_name : String) (key : Key) : Store :=
  let h := key_hash digest key
  st.filter (fun r => !(matchesKey table_name h r))

/-- `error(table_name, key, error_message)`: `insert1(..., replace=True)` —
REPLACE semantics: any row with the same composite key is removed and the
new `error` row inserted.  The inserted dict carries only `table_name`,
`key_hash`, `status`, `host`, `pid` and `error_message`; the `key` and
`error_stack` columns keep their `null` defaults. -/
def error (digest : String → String) (env : Env) (st : Store)
    (table_name : String) (key : Key) (error_message : String) : Store :=
  let h := key_hash digest key
  { table_name := table_name, key_hash := h, status := .error,
    host := env.nodename, pid := env.pid, error_message := error_message }
    :: st.filter (fun r => !(matchesKey table_name h r))

/-- A storage failure unrelated to the uniqueness constraint
(connectivity, permission, schema mismatch). -/
inductive DbFault where
  | connectivity
  | permission
  | schemaMismatch
deriving DecidableEq

/-- An exception raised by the storage layer: `integrityError` models
`pymysql.err.IntegrityError` raised by the conditional insert on a
duplicate composite key; `storage f` models any other database error
class. -/
inductive DbErr where
  | integrityError
  | storage (f : DbFault)
deriving DecidableEq

/-- `insert1` against the backend: an injected fault `some f` raises the
corresponding error; a healthy backend (`fault = none`) raises
`IntegrityError` exactly when a row with the same composite key exists,
and otherwise inserts the row. -/
def insert1E (st : Store) (r : JobRecord) (fault : Option DbFault) :
    Except DbErr Store :=
  match fault with
  | some f => .error (.storage f)
  | none =>
      match findRecord st r.table_name r.key_hash with
      | some _ => .error .integrityError
      | none => .ok (r :: st)

/-- `reserve` with the exception behaviour explicit: the `try/except`
catches `IntegrityError` only, turning it into `False`; any other
exception propagates unchanged. -/
def reserveE (digest : String → String) (env : Env) (st : Store)
    (table_name : String) (key : Key) (fault : Option DbFault) :
    Except DbErr (Store × Bool) :=
  let h := key_hash digest key
  let r : JobRecord :=
    { table_name := table_name, key_hash := h, status := .reserved,
      host := env.nodename, pid := env.pid }
  match insert1E st r fault with
  | .ok st2 => .ok (st2, true)
  | .error .integrityError => .ok (st, false)
  | .error (.storage f) => .error (.storage f)

/-- One call against a `JobRelation`, for reasoning about call sequences
from many uncoordinated workers. -/
inductive Op where
  | reserveOp (t : String) (k : Key)
  | completeOp (t : String) (k : Key)
  | errorOp (t : String) (k : Key) (msg : String)

/-- Execute one call; the boolean is the `reserve` result (`complete`
and `error` return nothing, recorded as `true`). -/
def step (digest : String → String) (env : Env) (st : Store) :
    Op → Store × Bool
  | .reserveOp t k => reserve digest env st t k
  | .completeOp t k => (complete digest st t k, true)
  | .errorOp t k m => (error digest env st t k m, true)

/-- Is this op a `reserve` on the composite pair `(t, h)`? -/
def isReserveFor (digest : String → String) (t h : String) : Op → Bool
  | .reserveOp t2 k2 => t2 == t && key_hash digest k2 == h
  | _ => false

/-- Is this op a `complete` on the composite pair `(t, h)`? -/
def isCompleteFor (digest : String → String) (t h : String) : Op → Bool
  | .completeOp t2 k2 => t2 == t && key_hash digest k2 == h
  | _ => false

/-- The number of `reserve` calls on the pair `(t, h)` that return
`true` while running `ops` sequentially from `st`. -/
def winCount (digest : String → String) (env : Env) (t h : String)
    (st : Store) : List Op → Nat
  | [] => 0
  | op :: ops =>
      let s := step digest env st op
      (if isReserveFor digest t h op && s.2 then 1 else 0) +
        winCount digest env t h s.1 ops

/-- A `JobRelation` instance: holds its connection and database name.
(The `_definition` DDL string and table declaration are storage-side
provisioning and carry no reservation-protocol state.) -/
structure JobRelation where
  connection : Nat
  database : String
deriving DecidableEq

/-- `JobManager`: a connection plus the `_jobs` cache mapping a database
name to its `JobRelation`. -/
structure JobManager where
  connection : Nat
  jobs : List (String × JobRelation) := []
deriving DecidableEq

/-- `JobManager.__getitem__(database)`: return the cached `JobRelation`,
constructing and caching one on first request. -/
def JobManager.getItem (m : JobManager) (database : String) :
    JobManager × JobRelation :=
  match m.jobs.lookup database with
  | some j => (m, j)
  | none =>
      let j : JobRelation := ⟨m.connection, database⟩
      ({ m with jobs := (database, j) :: m.jobs }, j)

/-! ## Properties of `key_hash` -/

instance : IsTotal (String × Value) (fun a b => a.1 ≤ b.1) :=
  ⟨fun a b => le_total a.1 b.1⟩

instance : IsTrans (String × Value) (fun a b => a.1 ≤ b.1) :=
  ⟨fun _ _ _ => le_trans⟩

theorem sortedItems_sorted_le (k : Key) :
    (sortedItems k).Pairwise (fun a b => a.1 ≤ b.1) :=
  List.sorted_insertionSort _ k

theorem sortedItems_perm (k : Key) : (sortedItems k).Perm k :=
  List.perm_insertionSort _ k

theorem sortedItems_sorted_lt (k : Key) (hd : (k.map Prod.fst).Nodup) :
    (sortedItems k).Pairwise (fun a b => a.1 < b.1) := by
  have hd2 : ((sortedItems k).map Prod.fst).Nodup :=
    (((sortedItems_perm k).map Prod.fst).nodup_iff).mpr hd
  have hne : (sortedItems k).Pairwise (fun a b => a.1 ≠ b.1) :=
    (List.pairwise_map).mp hd2
  exact ((sortedItems_sorted_le k).and hne).imp
    (fun h => lt_of_le_of_ne h.1 h.2)

theorem sortedItems_eq_of_perm (k1 k2 : Key)
    (hd : (k1.map Prod.fst).Nodup) (hp : k1.Perm k2) :
    sortedItems k1 = sortedItems k2 := by
  have hd2 : (k2.map Prod.fst).Nodup := ((hp.map Prod.fst).nodup_iff).mp hd
  have p : (sortedItems k1).Perm (sortedItems k2) :=
    (sortedItems_perm k1).trans (hp.trans (sortedItems_perm k2).symm)
  haveI : IsAntisymm (String × Value) (fun a b => a.1 < b.1) :=
    ⟨fun a b h1 h2 => absurd h1 (lt_asymm h2)⟩
  exact List.eq_of_perm_of_sorted p
    (sortedItems_sorted_lt k1 hd) (sortedItems_sorted_lt k2 hd2)

/-- C6: for every key mapping `k` (distinct field names) and every
reordering of its entries, `key_hash` of the reordered mapping equals
`key_hash k`: the sort on field name makes the hash depend only on the
field-name-to-value mapping, not on insertion order. -/
theorem key_hash_perm_invariant (digest : String → String) (k1 k2 : Key)
    (hd : (k1.map Prod.fst).Nodup) (hp : k1.Perm k2) :
    key_hash digest k1 = key_hash digest k2 := by
  unfold key_hash hashInput
  rw [sortedItems_eq_of_perm k1 k2 hd hp]

/-- Witness for C6 at the concrete keys `{b:1, a:2}` and `{a:2, b:1}`. -/
theorem key_hash_perm_invariant_witness :
    (([("b", Value.int 1), ("a", Value.int 2)] : Key).map Prod.fst).Nodup ∧
    ([("b", Value.int 1), ("a", Value.int 2)] : Key).Perm
      [("a", Value.int 2), ("b", Value.int 1)] ∧
    key_hash (fun s => s) [("b", Value.int 1), ("a", Value.int 2)] =
      key_hash (fun s => s) [("a", Value.int 2), ("b", Value.int 1)] :=
  ⟨by decide, by decide,
    key_hash_perm_invariant (fun s => s) _ _ (by decide) (by decide)⟩

/-- C9: the digest accumulates only the stringified values taken in
sorted-field-name order, never the field names, so any two keys with
equal value streams hash identically; in particular `{a:1}` and `{b:1}`
always produce the identical hash, for every digest function. -/
theorem key_hash_ignores_field_names (digest : String → String) :
    (∀ k1 k2 : Key,
      (sortedItems k1).map (fun kv => kv.2.toStr) =
          (sortedItems k2).map (fun kv => kv.2.toStr) →
      key_hash digest k1 = key_hash digest k2) ∧
    key_hash digest [("a", Value.int 1)] =
      key_hash digest [("b", Value.int 1)] := by
  constructor
  · intro k1 k2 h
    unfold key_hash hashInput
    rw [h]
  · unfold key_hash hashInput
    rfl

/-- Witness for C9 at concrete keys `{a:1}` and `{b:1}`. -/
theorem key_hash_ignores_field_names_witness :
    key_hash (fun s => s) [("a", Value.int 1)] =
      key_hash (fun s => s) [("b", Value.int 1)] :=
  (key_hash_ignores_field_names (fun s => s)).1 _ _ (by decide)

/-- C2 fails as stated: `{a:1}` and `{b:1}` are distinct mappings, yet
the digest accumulator receives the identical byte stream for both, so
their hashes agree deterministically (collision probability 1, not
"overwhelming probability" of distinctness), shown here for the sample
digest `id`. -/
theorem key_hash_collision_distinct_keys :
    ([("a", Value.int 1)] : Key) ≠ [("b", Value.int 1)] ∧
    hashInput [("a", Value.int 1)] = hashInput [("b", Value.int 1)] ∧
    key_hash (fun s => s) [("a", Value.int 1)] =
      key_hash (fun s => s) [("b", Value.int 1)] :=
  ⟨by decide, by decide, by decide⟩

/-- C2 (amended): hash distinctness holds only for keys whose sorted
value streams differ, and reduces to collision-freedom of the digest:
if the digest does not collide on the two streams, the hashes differ. -/
theorem key_hash_ne_of_stream_ne (digest : String → String)
    (hinj : Function.Injective digest) (k1 k2 : Key)
    (hne : hashInput k1 ≠ hashInput k2) :
    key_hash digest k1 ≠ key_hash digest k2 := by
  intro h
  exact hne (hinj h)

/-- Witness for the amended C2 at keys `{id:1}` and `{id:2}` with the
injective digest `id`. -/
theorem key_hash_ne_of_stream_ne_witness :
    key_hash (fun s => s) [("id", Value.int 1)] ≠
      key_hash (fun s => s) [("id", Value.int 2)] :=
  key_hash_ne_of_stream_ne (fun s => s) (fun a b h => h) _ _ (by decide)

/-! ## Properties of the reservation protocol -/

theorem matchesKey_eq_true_iff {t h : String} {r : JobRecord} :
    matchesKey t h r = true ↔ r.table_name = t ∧ r.key_hash = h := by
  simp [matchesKey]

theorem findRecord_cons (r : JobRecord) (st : Store) (t h : String) :
    findRecord (r :: st) t h =
      if matchesKey t h r then some r else findRecord st t h := by
  by_cases hm : matchesKey t h r
  · simp [findRecord, List.find?_cons_of_pos, hm]
  · simp only [findRecord, Bool.not_eq_true] at hm ⊢
    rw [List.find?_cons_of_neg _ (by simp [hm]), if_neg (by simp [hm])]

theorem present_cons (r : JobRecord) (st : Store) (t h : String)
    (hp : (findRecord st t h).isSome) :
    (findRecord (r :: st) t h).isSome := by
  rw [findRecord_cons]
  by_cases hm : matchesKey t h r <;> simp [hm, hp]

theorem present_filter_of_ne (st : Store) (t h t2 h2 : String)
    (hne : ¬(t2 = t ∧ h2 = h))
    (hp : (findRecord st t h).isSome) :
    (findRecord (st.filter (fun r => !(matchesKey t2 h2 r))) t h).isSome := by
  rw [findRecord, List.find?_isSome] at hp ⊢
  obtain ⟨r, hmem, hr⟩ := hp
  refine ⟨r, List.mem_filter.mpr ⟨hmem, ?_⟩, hr⟩
  rw [matchesKey_eq_true_iff] at hr
  simp only [Bool.not_eq_true', matchesKey, Bool.and_eq_false_iff, beq_eq_false_iff_ne]
  by_cases ht : t2 = t
  · exact Or.inr (by rw [hr.2]; exact fun hh => hne ⟨ht, hh.symm⟩)
  · exact Or.inl (by rw [hr.1]; exact fun ht2 => ht ht2.symm)

theorem absent_filter (st : Store) (p : JobRecord → Bool) (t h : String)
    (ha : findRecord st t h = none) :
    findRecord (st.filter p) t h = none := by
  rw [findRecord, List.find?_eq_none] at ha ⊢
  exact fun r hr => ha r (List.mem_filter.mp hr).1

theorem reserve_eq_of_present (digest : String → String) (env : Env)
    (st : Store) (t : String) (k : Key)
    (hp : (findRecord st t (key_hash digest k)).isSome) :
    reserve digest env st t k = (st, false) := by
  cases hfr : findRecord st t (key_hash digest k) with
  | none => rw [hfr] at hp; simp at hp
  | some r => simp [reserve, hfr]

theorem reserve_eq_of_absent (digest : String → String) (env : Env)
    (st : Store) (t : String) (k : Key)
    (ha : findRecord st t (key_hash digest k) = none) :
    reserve digest env st t k =
      ({ table_name := t, key_hash := key_hash digest k, status := .reserved,
         host := env.nodename, pid := env.pid } :: st, true) := by
  simp [reserve, ha]

theorem step_preserves_present (digest : String → String) (env : Env)
    (t h : String) (st : Store) (op : Op)
    (hnc : isCompleteFor digest t h op = false)
    (hp : (findRecord st t h).isSome) :
    (findRecord (step digest env st op).1 t h).isSome := by
  cases op with
  | reserveOp t2 k2 =>
      cases hfr : findRecord st t2 (key_hash digest k2) with
      | some r => simpa [step, reserve, hfr] using hp
      | none =>
          simp only [step, reserve, hfr]
          exact present_cons _ _ _ _ hp
  | completeOp t2 k2 =>
      simp only [isCompleteFor, Bool.and_eq_false_iff, beq_eq_false_iff_ne] at hnc
      exact present_filter_of_ne st t h t2 (key_hash digest k2)
        (fun hc => by cases hnc with
          | inl h1 => exact h1 hc.1
          | inr h2 => exact h2 hc.2) hp
  | errorOp t2 k2 m =>
      by_cases hmatch : t2 = t ∧ key_hash digest k2 = h
      · simp only [step, error]
        rw [findRecord_cons]
        have : matchesKey t h
            { table_name := t2, key_hash := key_hash digest k2,
              status := .error, host := env.nodename, pid := env.pid,
              error_message := m } = true := by
          rw [matchesKey_eq_true_iff]
          exact ⟨hmatch.1, hmatch.2⟩
        simp [this]
      · simp only [step, error]
        exact present_cons _ _ _ _
          (present_filter_of_ne st t h t2 (key_hash digest k2) hmatch hp)

theorem winCount_eq_zero_of_present (digest : String → String) (env : Env)
    (t h : String) (ops : List Op) :
    (∀ op ∈ ops, isCompleteFor digest t h op = false) →
    ∀ st : Store, (findRecord st t h).isSome →
    winCount digest env t h st ops = 0 := by
  induction ops with
  | nil => intro _ st _; rfl
  | cons op ops ih =>
      intro hnc st hp
      have hnc0 := hnc op (List.mem_cons_self op ops)
      have hncs : ∀ o ∈ ops, isCompleteFor digest t h o = false :=
        fun o ho => hnc o (List.mem_cons_of_mem _ ho)
      have hpres := step_preserves_present digest env t h st op hnc0 hp
      simp only [winCount]
      rw [ih hncs _ hpres, Nat.add_zero]
      cases hir : isReserveFor digest t h op with
      | false => simp [hir]
      | true =>
          cases op with
          | completeOp t2 k2 => simp [isReserveFor] at hir
          | errorOp t2 k2 m => simp [isReserveFor] at hir
          | reserveOp t2 k2 =>
              simp only [isReserveFor, Bool.and_eq_true, beq_iff_eq] at hir
              have hp2 : (findRecord st t2 (key_hash digest k2)).isSome := by
                rw [hir.1, hir.2]; exact hp
              have := reserve_eq_of_present digest env st t2 k2 hp2
              simp [step, this]

theorem winCount_le_one (digest : String → String) (env : Env)
    (t h : String) (ops : List Op)
    (hnc : ∀ op ∈ ops, isCompleteFor digest t h op = false) :
    ∀ st : Store, winCount digest env t h st ops ≤ 1 := by
  induction ops with
  | nil => intro st; simp [winCount]
  | cons op ops ih =>
      intro st
      have hnc0 := hnc op (List.mem_cons_self op ops)
      have hncs : ∀ o ∈ ops, isCompleteFor digest t h o = false :=
        fun o ho => hnc o (List.mem_cons_of_mem _ ho)
      simp only [winCount]
      cases hir : isReserveFor digest t h op with
      | false =>
          simp only [hir, Bool.false_and, if_false]
          exact Nat.zero_add _ ▸ ih hncs _
      | true =>
          cases op with
          | completeOp t2 k2 => simp [isReserveFor] at hir
          | errorOp t2 k2 m => simp [isReserveFor] at hir
          | reserveOp t2 k2 =>
              simp only [isReserveFor, Bool.and_eq_true, beq_iff_eq] at hir
              by_cases hp : (findRecord st t h).isSome
              · have hp2 : (findRecord st t2 (key_hash digest k2)).isSome := by
                  rw [hir.1, hir.2]; exact hp
                have := reserve_eq_of_present digest env st t2 k2 hp2
                simp only [step, this]
                simpa using ih hncs st
              · have ha : findRecord st t2 (key_hash digest k2) = none := by
                  rw [hir.1, hir.2]
                  exact Option.not_isSome_iff_eq_none.mp hp
                have hres := reserve_eq_of_absent digest env st t2 k2 ha
                have hafter : (findRecord ((step digest env st
                    (Op.reserveOp t2 k2)).1) t h).isSome := by
                  simp only [step, hres]
                  rw [findRecord_cons]
                  have : matchesKey t h
                      { table_name := t2, key_hash := key_hash digest k2,
                        status := .reserved, host := env.nodename,
                        pid := env.pid } = true := by
                    rw [matchesKey_eq_true_iff]
                    exact ⟨hir.1, hir.2⟩
                  simp [this]
                have hzero := winCount_eq_zero_of_present digest env t h ops
                  hncs _ hafter
                simp only [step, hres] at hzero ⊢
                simp [hzero]

/-- C1: for one composite pair `(t, h)` and any sequence of
reserve/complete/error calls containing no `complete` for that pair,
at most one `reserve` on the pair returns `true`, from any starting
store; in particular a first `reserve("T", [id:1])` from the empty
store returns `true` and a second immediately after returns `false`. -/
theorem reserve_mutual_exclusion (digest : String → String) (env : Env)
    (t h : String) (st : Store) (ops : List Op)
    (hnc : ∀ op ∈ ops, isCompleteFor digest t h op = false) :
    winCount digest env t h st ops ≤ 1 ∧
    (reserve digest env [] "T" [("id", Value.int 1)]).2 = true ∧
    (reserve digest env
        (reserve digest env [] "T" [("id", Value.int 1)]).1 "T"
        [("id", Value.int 1)]).2 = false := by
  refine ⟨winCount_le_one digest env t h ops hnc st, ?_, ?_⟩
  · simp [reserve, findRecord]
  · rw [reserve_eq_of_absent digest env [] "T" [("id", Value.int 1)] rfl]
    have hp : (findRecord
        [{ table_name := "T",
           key_hash := key_hash digest [("id", Value.int 1)],
           status := .reserved, host := env.nodename, pid := env.pid }]
        "T" (key_hash digest [("id", Value.int 1)])).isSome := by
      rw [findRecord_cons]
      have : matchesKey "T" (key_hash digest [("id", Value.int 1)])
          { table_name := "T",
            key_hash := key_hash digest [("id", Value.int 1)],
            status := .reserved, host := env.nodename,
            pid := env.pid } = true := by
        rw [matchesKey_eq_true_iff]; exact ⟨rfl, rfl⟩
      simp [this]
    rw [reserve_eq_of_present digest env _ "T" [("id", Value.int 1)] hp]

/-- Witness for C1: two back-to-back reserves of the same key, no
completes, from the empty store. -/
theorem reserve_mutual_exclusion_witness :
    winCount (fun s => s) ⟨"host1", 7⟩ "T" "1" []
      [Op.reserveOp "T" [("id", Value.int 1)],
       Op.reserveOp "T" [("id", Value.int 1)]] ≤ 1 :=
  (reserve_mutual_exclusion (fun s => s) ⟨"host1", 7⟩ "T" "1" []
    [Op.reserveOp "T" [("id", Value.int 1)],
     Op.reserveOp "T" [("id", Value.int 1)]]
    (by intro op hop; fin_cases hop <;> rfl)).1

theorem reserveE_none_eq (digest : String → String) (env : Env) (st : Store)
    (t : String) (k : Key) :
    reserveE digest env st t k none = .ok (reserve digest env st t k) := by
  cases hfr : findRecord st t (key_hash digest k) <;>
    simp [reserveE, insert1E, reserve, hfr]

/-- C3: `reserve` returns `false` exactly when the conditional insert
fails with a duplicate composite key; that `IntegrityError` is never
surfaced as an exception, while every other storage failure propagates
to the caller unchanged. -/
theorem reserve_false_iff_duplicate (digest : String → String) (env : Env)
    (st : Store) (t : String) (k : Key) :
    (reserveE digest env st t k none = .ok (st, false) ↔
      (findRecord st t (key_hash digest k)).isSome) ∧
    (∀ e : DbErr, reserveE digest env st t k none ≠ .error e) ∧
    (∀ f : DbFault, reserveE digest env st t k (some f) =
      .error (.storage f)) := by
  refine ⟨?_, ?_, ?_⟩
  · cases hfr : findRecord st t (key_hash digest k) with
    | some r => simp [reserveE, insert1E, hfr]
    | none => simp [reserveE, insert1E, hfr]
  · intro e
    cases hfr : findRecord st t (key_hash digest k) <;>
      simp [reserveE, insert1E, hfr]
  · intro f
    simp [reserveE, insert1E]

/-- Witness for C3: an injected connectivity fault propagates out of
`reserve` unchanged. -/
theorem reserve_false_iff_duplicate_witness :
    reserveE (fun s => s) ⟨"host1", 7⟩ [] "T" [("id", Value.int 1)]
      (some .connectivity) = .error (.storage .connectivity) :=
  (reserve_false_iff_duplicate (fun s => s) ⟨"host1", 7⟩ [] "T"
    [("id", Value.int 1)]).2.2 DbFault.connectivity

theorem findRecord_error (digest : String → String) (env : Env) (st : Store)
    (t : String) (k : Key) (msg : String) :
    findRecord (error digest env st t k msg) t (key_hash digest k) =
      some { table_name := t, key_hash := key_hash digest k,
             status := .error, host := env.nodename, pid := env.pid,
             error_message := msg } := by
  simp only [error]
  rw [findRecord_cons]
  have hm : matchesKey t (key_hash digest k)
      { table_name := t, key_hash := key_hash digest k, status := .error,
        host := env.nodename, pid := env.pid,
        error_message := msg } = true := by
    rw [matchesKey_eq_true_iff]; exact ⟨rfl, rfl⟩
  simp [hm]

/-- C4: after `reserve("T", [id:1])` succeeds, `error("T", [id:1],
"boom")` leaves a persisted record with status `error` and message
`"boom"`, and a subsequent `reserve("T", [id:1])` returns `false`. -/
theorem error_blocks_rereservation (digest : String → String)
    (env env2 : Env) :
    (reserve digest env [] "T" [("id", Value.int 1)]).2 = true ∧
    (findRecord (error digest env2
        (reserve digest env [] "T" [("id", Value.int 1)]).1 "T"
        [("id", Value.int 1)] "boom") "T"
        (key_hash digest [("id", Value.int 1)])).map
      (fun r => (r.status, r.error_message)) = some (.error, "boom") ∧
    (reserve digest env2 (error digest env2
        (reserve digest env [] "T" [("id", Value.int 1)]).1 "T"
        [("id", Value.int 1)] "boom") "T" [("id", Value.int 1)]).2 =
      false := by
  refine ⟨by simp [reserve, findRecord], ?_, ?_⟩
  · rw [findRecord_error]
    rfl
  · rw [reserve_eq_of_present digest env2 _ "T" [("id", Value.int 1)]
      (by rw [findRecord_error]; rfl)]

/-- C5 fails as stated: the code's `error` takes no `errorStack`
argument and stores no copy of the identifying key — after
`error("T", [id:1], "boom")` the persisted record's `key` and
`error_stack` columns are both `null`, not a serialized copy of the
key. -/
theorem error_drops_key_copy :
    (findRecord
        (error (fun s => s) ⟨"host1", 7⟩ [] "T" [("id", Value.int 1)]
          "boom")
        "T" (key_hash (fun s => s) [("id", Value.int 1)])).map
      (fun r => (r.key, r.error_stack)) = some (none, none) ∧
    (findRecord
        (error (fun s => s) ⟨"host1", 7⟩ [] "T" [("id", Value.int 1)]
          "boom")
        "T" (key_hash (fun s => s) [("id", Value.int 1)])).map
      (fun r => r.key) ≠ some (some [("id", Value.int 1)]) := by
  constructor <;> decide

/-- C5 (amended): `error(workUnitName, key, errorMessage)` performs an
insert-or-replace of a record with status `error`, the given message
and the current host/pid; the `key` and `errorStack` columns retain
their null defaults, and exactly one record for the composite key
remains. -/
theorem error_record_fields (digest : String → String) (env : Env)
    (st : Store) (t : String) (k : Key) (msg : String) :
    ∃ r : JobRecord,
      findRecord (error digest env st t k msg) t (key_hash digest k) =
        some r ∧
      r.status = .error ∧ r.error_message = msg ∧
      r.host = env.nodename ∧ r.pid = env.pid ∧
      r.key = none ∧ r.error_stack = none ∧
      (error digest env st t k msg).countP
        (matchesKey t (key_hash digest k)) = 1 := by
  refine ⟨_, findRecord_error digest env st t k msg,
    rfl, rfl, rfl, rfl, rfl, rfl, ?_⟩
  simp only [error]
  rw [List.countP_cons_of_pos _ _ (by
    rw [matchesKey_eq_true_iff]; exact ⟨rfl, rfl⟩)]
  rw [List.countP_eq_zero.mpr (fun r hr => by
    have := (List.mem_filter.mp hr).2
    simpa using this)]

theorem findRecord_complete (digest : String → String) (st : Store)
    (t : String) (k : Key) :
    findRecord (complete digest st t k) t (key_hash digest k) = none := by
  rw [findRecord, List.find?_eq_none]
  intro r hr
  have h2 := (List.mem_filter.mp hr).2
  simpa using h2

/-- C7: a reserve–complete round trip restores reservability: after a
successful `reserve`, running `complete` and then `reserve` again on
the same table and key returns `true`. -/
theorem reserve_complete_reserve (digest : String → String)
    (env env2 : Env) (st : Store) (t : String) (k : Key)
    (_hfirst : (reserve digest env st t k).2 = true) :
    (reserve digest env2
        (complete digest (reserve digest env st t k).1 t k) t k).2 =
      true := by
  rw [reserve_eq_of_absent digest env2 _ t k
    (findRecord_complete digest _ t k)]

/-- Witness for C7 at a concrete digest, environment and key. -/
theorem reserve_complete_reserve_witness :
    (reserve (fun s => s) ⟨"host1", 7⟩
        (complete (fun s => s)
          (reserve (fun s => s) ⟨"host1", 7⟩ [] "T"
            [("id", Value.int 1)]).1
          "T" [("id", Value.int 1)])
        "T" [("id", Value.int 1)]).2 = true :=
  reserve_complete_reserve (fun s => s) ⟨"host1", 7⟩ ⟨"host1", 7⟩ [] "T"
    [("id", Value.int 1)] (by decide)

/-- C8: `complete` deletes the record for `(t, keyHash)` if present,
and on a store holding no such record it is a no-op (deleting a
non-existent record raises no error and changes nothing). -/
theorem complete_deletes_and_noop (digest : String → String) (st : Store)
    (t : String) (k : Key) :
    findRecord (complete digest st t k) t (key_hash digest k) = none ∧
    (findRecord st t (key_hash digest k) = none →
      complete digest st t k = st) := by
  refine ⟨findRecord_complete digest st t k, ?_⟩
  intro ha
  rw [findRecord, List.find?_eq_none] at ha
  simp only [complete]
  rw [List.filter_eq_self.mpr]
  intro r hr
  simpa using ha r hr

/-- Witness for C8: completing a never-reserved key on the empty store
leaves the store unchanged. -/
theorem complete_deletes_and_noop_witness :
    complete (fun s => s) [] "T" [("id", Value.int 1)] = [] :=
  (complete_deletes_and_noop (fun s => s) [] "T" [("id", Value.int 1)]).2
    rfl

/-- C10: `JobManager.__getitem__` returns the `JobRelation` for the
database, constructing and caching it on the first request and
returning the same cached instance on every later request. -/
theorem getItem_caches (m : JobManager) (d : String) :
    ((m.getItem d).1.getItem d).2 = (m.getItem d).2 ∧
    ((m.getItem d).1.getItem d).1 = (m.getItem d).1 ∧
    (m.jobs.lookup d = none →
      (m.getItem d).2 = ⟨m.connection, d⟩ ∧
      (m.getItem d).1.jobs =
        (d, (⟨m.connection, d⟩ : JobRelation)) :: m.jobs) := by
  cases hl : m.jobs.lookup d with
  | some j =>
      refine ⟨?_, ?_, fun hn => absurd hn (by simp)⟩ <;>
        simp [JobManager.getItem, hl]
  | none =>
      refine ⟨?_, ?_, fun _ => ⟨?_, ?_⟩⟩ <;>
        simp [JobManager.getItem, hl, List.lookup]

/-- Witness for C10: first request on an empty cache constructs the
store for the database. -/
theorem getItem_caches_witness :
    ((JobManager.mk 5 []).getItem "db").2 = ⟨5, "db"⟩ :=
  ((getItem_caches ⟨5, []⟩ "db").2.2 rfl).1

end DataJoint
